import Mathlib

/-!
# smugVision — verification of the per-item enrichment pipeline

Shallow embedding, in Lean 4, of the parts of the smugVision code base that
the specification's claims are about:

* `src/smugvision/smugmug/models.py` — `AlbumImage.has_marker_tag`
* `src/smugvision/web/services/preview.py` — `PreviewService._format_tags`
* `src/smugvision/utils/locations.py` — `LocationResolver.find_match`
* `src/smugvision/face/recognizer.py` — `identify_faces`, `load_reference_faces`
* `src/smugvision/utils/exif.py` / `exif_optimized.py` — `reverse_geocode`,
  `search_nearby_pois_overpass`
* `src/smugvision/processing/processor.py` — `ImageProcessor.process_image`,
  `ImageProcessor.process_album`

Python machine floats are modelled by `ℚ`; external calls (network, vision
model, filesystem) are modelled as oracle data passed to the embedded
functions, with `Except` capturing calls that may raise.  Wall-clock timing
fields (`processing_time`, `total_time`) are not modelled.
-/

namespace SmugVision

/-- Python's `str.lower()`: lowercase every character.  (Defined through
`List.map` on the character list so that concrete instances reduce inside
the kernel; extensionally it agrees with `String.toLower`.) -/
def pyLower (s : String) : String :=
  String.mk (s.data.map Char.toLower)

/-- Python's string truthiness-based `x or y` for optional string values:
`None` and the empty string are falsy. -/
def pyOr (a b : Option String) : Option String :=
  match a with
  | some s => if s = "" then b else some s
  | none => b

/-- Case-insensitive membership test, `t.lower() in [x.lower() for x in l]`. -/
def lowerMem (t : String) (l : List String) : Bool :=
  (l.map pyLower).contains (pyLower t)

/-- A tag list with no two entries equal up to letter case. -/
def caseNodup (l : List String) : Prop :=
  (l.map pyLower).Nodup

instance (l : List String) : Decidable (caseNodup l) := by
  unfold caseNodup; infer_instance

/-- How often `t` occurs in `l`, up to letter case. -/
def countCase (t : String) (l : List String) : ℕ :=
  (l.map pyLower).count (pyLower t)

/-! ## `AlbumImage` (src/smugvision/smugmug/models.py) -/

/-- The fields of `AlbumImage` that the per-item pipeline reads.
GPS coordinates are decimal degrees, modelled as `ℚ`. -/
structure AlbumImage where
  imageKey : String
  fileName : String
  caption : Option String
  keywords : List String
  isVideo : Bool
  latitude : Option ℚ
  longitude : Option ℚ
  deriving Repr, DecidableEq

/-- `AlbumImage.has_gps` (models.py line 110-112):
`self.latitude is not None and self.longitude is not None`. -/
def AlbumImage.hasGps (img : AlbumImage) : Bool :=
  img.latitude.isSome && img.longitude.isSome

/-- `AlbumImage.has_marker_tag` (models.py line 179-188):
`marker_tag.lower() in [k.lower() for k in self.keywords]`. -/
def AlbumImage.hasMarkerTag (img : AlbumImage) (markerTag : String) : Bool :=
  lowerMem markerTag img.keywords

/-! ## `PreviewService._format_tags` (src/smugvision/web/services/preview.py, lines 572-604) -/

/-- One `tags.append(tag)` step guarded by the case-insensitive membership
check used throughout `_format_tags`. -/
def addTagIfNew (tags : List String) (tag : String) : List String :=
  if lowerMem tag tags then tags else tags ++ [tag]

/-- `PreviewService._format_tags` (preview.py lines 572-604): start from the
existing tags when `preserve_existing`, append AI tags, person names and the
marker tag, each only if not already present case-insensitively. -/
def formatTagsPreview (preserveExisting : Bool) (aiTags existingTags : List String)
    (personNames : Option (List String)) (markerTag : String) : List String :=
  let tags := if preserveExisting then existingTags else []
  let tags := aiTags.foldl addTagIfNew tags
  let tags :=
    match personNames with
    | some names => names.foldl addTagIfNew tags
    | none => tags
  addTagIfNew tags markerTag

end SmugVision

namespace SmugVision

/-! ## Lemmas about case-insensitive tag addition -/

theorem lowerMem_iff {t : String} {l : List String} :
    lowerMem t l = true ↔ ∃ k ∈ l, pyLower k = pyLower t := by
  unfold lowerMem
  rw [show ((l.map pyLower).contains (pyLower t) = true) ↔
      pyLower t ∈ l.map pyLower by simp]
  constructor
  · intro h
    rcases List.mem_map.mp h with ⟨k, hk, hke⟩
    exact ⟨k, hk, hke⟩
  · rintro ⟨k, hk, hke⟩
    exact List.mem_map.mpr ⟨k, hk, hke⟩

theorem addTagIfNew_caseNodup {tags : List String} {t : String}
    (h : caseNodup tags) : caseNodup (addTagIfNew tags t) := by
  unfold addTagIfNew
  by_cases hm : lowerMem t tags = true
  · simp [hm, h]
  · simp only [hm]
    simp only [Bool.false_eq_true, if_false]
    unfold caseNodup at h ⊢
    rw [List.map_append]
    simp only [List.map_cons, List.map_nil]
    rw [List.nodup_append]
    refine ⟨h, List.nodup_singleton _, ?_⟩
    intro a ha hb
    simp only [List.mem_singleton] at hb
    subst hb
    rcases List.mem_map.mp ha with ⟨k, hk, hke⟩
    exact absurd (lowerMem_iff.mpr ⟨k, hk, hke⟩) hm

theorem foldl_addTagIfNew_caseNodup {l : List String} {tags : List String}
    (h : caseNodup tags) : caseNodup (l.foldl addTagIfNew tags) := by
  induction l generalizing tags with
  | nil => exact h
  | cons x xs ih => exact ih (addTagIfNew_caseNodup h)

theorem addTagIfNew_mem_self {tags : List String} {t : String} :
    lowerMem t (addTagIfNew tags t) = true := by
  unfold addTagIfNew
  by_cases hm : lowerMem t tags = true
  · simp [hm]
  · simp only [hm, Bool.false_eq_true, if_false]
    apply lowerMem_iff.mpr
    exact ⟨t, by simp, rfl⟩

/-! ## `LocationResolver` (src/smugvision/utils/locations.py) -/

/-- `CustomLocation` (locations.py lines 21-47): one named region of the
user gazetteer.  Coordinates and radius are decimal numbers, modelled as `ℚ`. -/
structure CustomLocation where
  name : String
  latitude : ℚ
  longitude : ℚ
  radius : ℚ
  address : Option String
  aliases : List String
  deriving Repr, DecidableEq

/-- `LocationMatch` (locations.py lines 50-76): a matched region and its
distance to the query point (`is_custom` is constantly true and omitted). -/
structure LocationMatch where
  location : CustomLocation
  distance : ℚ
  deriving Repr, DecidableEq

/-- One iteration of the `for location in self._locations` loop of
`LocationResolver.find_match` (locations.py lines 244-255): keep the
candidate if its distance is within the radius and strictly smaller than the
best so far.  `dist` stands for `LocationResolver._haversine_distance`
(locations.py lines 266-293), whose transcendental float arithmetic is kept
abstract: every theorem below holds for an arbitrary distance function. -/
def findStep (dist : ℚ → ℚ → ℚ → ℚ → ℚ) (lat lon : ℚ)
    (best : Option LocationMatch) (loc : CustomLocation) : Option LocationMatch :=
  let d := dist lat lon loc.latitude loc.longitude
  if d ≤ loc.radius then
    match best with
    | none => some ⟨loc, d⟩
    | some b => if d < b.distance then some ⟨loc, d⟩ else some b
  else best

/-- `LocationResolver.find_match` (locations.py lines 217-264): return the
closest loaded region containing the query point, or `none`. -/
def findMatch (dist : ℚ → ℚ → ℚ → ℚ → ℚ) (locs : List CustomLocation)
    (lat lon : ℚ) : Option LocationMatch :=
  if locs.isEmpty then none
  else locs.foldl (findStep dist lat lon) none

/-! ## `FaceRecognizer.identify_faces` classification loop (src/smugvision/face/recognizer.py, lines 503-537) -/

/-- The distances from one detected face to every reference encoding of
every known person: each pair is a person name together with the list of
`face_recognition.face_distance` values (floats, modelled as `ℚ`) to that
person's reference encodings. -/
def allDistances (refs : List (String × List ℚ)) : List ℚ :=
  (refs.map Prod.snd).flatten

/-- The nested `for person_name ... for ref_encoding ...` loop of
`identify_faces` (recognizer.py lines 506-520): track `(best_match,
best_distance)`, starting from `(None, inf)` (modelled as `none`), updating
on strict `<`. -/
def scanRefs (refs : List (String × List ℚ)) : Option (String × ℚ) :=
  refs.foldl
    (fun acc p => p.2.foldl
      (fun acc d =>
        match acc with
        | none => some (p.1, d)
        | some (n, b) => if d < b then some (p.1, d) else some (n, b)) acc)
    (none : Option (String × ℚ))

/-- The acceptance step of `identify_faces` (recognizer.py lines 522-535):
`if best_match and best_distance <= self.tolerance` — a truthy (non-empty)
name within tolerance yields `(best_match, 1 - best_distance / tolerance)`,
anything else yields `("Unknown", 0.0)`. -/
def classifyFace (tolerance : ℚ) (refs : List (String × List ℚ)) : String × ℚ :=
  match scanRefs refs with
  | some (name, d) =>
      if name ≠ "" ∧ d ≤ tolerance then (name, 1 - d / tolerance)
      else ("Unknown", 0)
  | none => ("Unknown", 0)

end SmugVision

namespace SmugVision

/-! ### Fold invariants for `find_match` -/

/-- Invariant of the `find_match` loop accumulator relative to the regions
already scanned. -/
def FindInv (dist : ℚ → ℚ → ℚ → ℚ → ℚ) (lat lon : ℚ)
    (seen : List CustomLocation) (acc : Option LocationMatch) : Prop :=
  match acc with
  | none => ∀ loc ∈ seen, ¬ dist lat lon loc.latitude loc.longitude ≤ loc.radius
  | some m =>
      m.location ∈ seen ∧
      m.distance = dist lat lon m.location.latitude m.location.longitude ∧
      m.distance ≤ m.location.radius ∧
      ∀ loc ∈ seen, dist lat lon loc.latitude loc.longitude ≤ loc.radius →
        m.distance ≤ dist lat lon loc.latitude loc.longitude

theorem findStep_inv {dist : ℚ → ℚ → ℚ → ℚ → ℚ} {lat lon : ℚ}
    {seen : List CustomLocation} {acc : Option LocationMatch}
    (h : FindInv dist lat lon seen acc) (loc : CustomLocation) :
    FindInv dist lat lon (seen ++ [loc]) (findStep dist lat lon acc loc) := by
  unfold findStep
  by_cases hd : dist lat lon loc.latitude loc.longitude ≤ loc.radius
  · simp only [hd, if_true]
    cases acc with
    | none =>
        refine ⟨by simp, rfl, hd, ?_⟩
        intro l hl hlr
        rcases List.mem_append.mp hl with hl | hl
        · exact absurd hlr (h l hl)
        · simp only [List.mem_singleton] at hl; subst hl; exact le_refl _
    | some b =>
        obtain ⟨hmem, hdist, hrad, hmin⟩ := h
        by_cases hlt : dist lat lon loc.latitude loc.longitude < b.distance
        · simp only [hlt, if_true]
          refine ⟨by simp, rfl, hd, ?_⟩
          intro l hl hlr
          rcases List.mem_append.mp hl with hl | hl
          · exact le_trans (le_of_lt hlt) (hmin l hl hlr)
          · simp only [List.mem_singleton] at hl; subst hl; exact le_refl _
        · simp only [hlt, if_false]
          refine ⟨List.mem_append.mpr (Or.inl hmem), hdist, hrad, ?_⟩
          intro l hl hlr
          rcases List.mem_append.mp hl with hl | hl
          · exact hmin l hl hlr
          · simp only [List.mem_singleton] at hl; subst hl
            exact le_of_not_lt hlt
  · simp only [hd, if_false]
    cases acc with
    | none =>
        intro l hl
        rcases List.mem_append.mp hl with hl | hl
        · exact h l hl
        · simp only [List.mem_singleton] at hl; subst hl; exact hd
    | some b =>
        obtain ⟨hmem, hdist, hrad, hmin⟩ := h
        refine ⟨List.mem_append.mpr (Or.inl hmem), hdist, hrad, ?_⟩
        intro l hl hlr
        rcases List.mem_append.mp hl with hl | hl
        · exact hmin l hl hlr
        · simp only [List.mem_singleton] at hl; subst hl; exact absurd hlr hd

theorem foldl_findStep_inv (dist : ℚ → ℚ → ℚ → ℚ → ℚ) (lat lon : ℚ)
    (locs : List CustomLocation) :
    ∀ (seen : List CustomLocation) (acc : Option LocationMatch),
      FindInv dist lat lon seen acc →
      FindInv dist lat lon (seen ++ locs) (locs.foldl (findStep dist lat lon) acc) := by
  induction locs with
  | nil => intro seen acc h; simpa using h
  | cons x xs ih =>
      intro seen acc h
      have h' := findStep_inv h x
      have := ih (seen ++ [x]) _ h'
      simpa using this

theorem findMatch_inv (dist : ℚ → ℚ → ℚ → ℚ → ℚ) (locs : List CustomLocation)
    (lat lon : ℚ) :
    FindInv dist lat lon locs (findMatch dist locs lat lon) := by
  unfold findMatch
  by_cases he : locs.isEmpty
  · rw [List.isEmpty_iff] at he
    subst he
    simp [FindInv]
  · simp only [he, Bool.false_eq_true, if_false]
    have := foldl_findStep_inv dist lat lon locs [] none (by intro l hl; simp at hl)
    simpa using this

end SmugVision

namespace SmugVision

/-! ### Fold invariants for the `identify_faces` scan -/

theorem scanRefs_eq (refs : List (String × List ℚ)) :
    scanRefs refs =
      refs.foldl
        (fun acc p => p.2.foldl
          (fun acc d =>
            match acc with
            | none => some (p.1, d)
            | some (n, b) => if d < b then some (p.1, d) else some (n, b)) acc)
        none := rfl

/-- The inner-loop update of `scanRefs`, named for the induction proofs. -/
def innerStep (name : String) (acc : Option (String × ℚ)) (d : ℚ) :
    Option (String × ℚ) :=
  match acc with
  | none => some (name, d)
  | some (n, b) => if d < b then some (name, d) else some (n, b)

theorem innerStep_ne_none (name : String) (acc : Option (String × ℚ)) (d : ℚ) :
    innerStep name acc d ≠ none := by
  unfold innerStep
  cases acc with
  | none => simp
  | some p =>
      obtain ⟨n, b⟩ := p
      by_cases h : d < b <;> simp [h]

theorem innerStep_snd_le (name : String) (acc : Option (String × ℚ)) (d : ℚ) :
    ∃ c, innerStep name acc d = some c ∧ c.2 ≤ d ∧
      (∀ b, acc = some b → c.2 ≤ b.2) := by
  unfold innerStep
  cases acc with
  | none => exact ⟨(name, d), rfl, le_refl _, by intro b hb; cases hb⟩
  | some p =>
      obtain ⟨n, b⟩ := p
      by_cases h : d < b
      · refine ⟨(name, d), by simp [h], le_refl _, ?_⟩
        intro c hc
        cases hc
        exact le_of_lt h
      · refine ⟨(n, b), by simp [h], le_of_not_lt h, ?_⟩
        intro c hc
        cases hc
        exact le_refl _

theorem inner_go (name : String) (ds : List ℚ) :
    ∀ acc : Option (String × ℚ),
      (ds.foldl (innerStep name) acc = none ↔ acc = none ∧ ds = []) ∧
      (∀ n d, ds.foldl (innerStep name) acc = some (n, d) →
        (acc = some (n, d) ∨ (n = name ∧ d ∈ ds)) ∧
        (∀ x ∈ ds, d ≤ x) ∧
        (∀ b, acc = some b → d ≤ b.2)) := by
  induction ds with
  | nil =>
      intro acc
      refine ⟨by simp, ?_⟩
      intro n d h
      simp only [List.foldl_nil] at h
      exact ⟨Or.inl h, by simp, by intro b hb; rw [h] at hb; cases hb; exact le_refl _⟩
  | cons d₀ ds ih =>
      intro acc
      simp only [List.foldl_cons]
      obtain ⟨c, hc, hcle, hcacc⟩ := innerStep_snd_le name acc d₀
      constructor
      · rw [(ih (innerStep name acc d₀)).1]
        constructor
        · rintro ⟨h1, -⟩
          exact absurd h1 (innerStep_ne_none name acc d₀)
        · rintro ⟨-, h2⟩
          cases h2
      · intro n d h
        obtain ⟨h1, h2, h3⟩ := (ih (innerStep name acc d₀)).2 n d h
        have hdle : d ≤ d₀ := le_trans (h3 c hc) hcle
        refine ⟨?_, ?_, ?_⟩
        · rcases h1 with h1 | h1
          · -- the accumulator after one step carried (n, d)
            unfold innerStep at h1
            cases hacc : acc with
            | none =>
                rw [hacc] at h1
                simp only at h1
                cases h1
                exact Or.inr ⟨rfl, by simp⟩
            | some p =>
                obtain ⟨m, b⟩ := p
                rw [hacc] at h1
                by_cases hlt : d₀ < b
                · simp only [hlt, if_true] at h1
                  cases h1
                  exact Or.inr ⟨rfl, by simp⟩
                · simp only [hlt, if_false] at h1
                  exact Or.inl (by rw [h1])
          · exact Or.inr ⟨h1.1, List.mem_cons_of_mem _ h1.2⟩
        · intro x hx
          rcases List.mem_cons.mp hx with hx | hx
          · subst hx; exact hdle
          · exact h2 x hx
        · intro b hb
          exact le_trans (h3 c hc) (hcacc b hb)

theorem scan_go (refs : List (String × List ℚ)) :
    ∀ acc : Option (String × ℚ),
      (refs.foldl (fun acc p => p.2.foldl (innerStep p.1) acc) acc = none ↔
        acc = none ∧ allDistances refs = []) ∧
      (∀ n d,
        refs.foldl (fun acc p => p.2.foldl (innerStep p.1) acc) acc = some (n, d) →
        (acc = some (n, d) ∨ ∃ p ∈ refs, p.1 = n ∧ d ∈ p.2) ∧
        (∀ x ∈ allDistances refs, d ≤ x) ∧
        (∀ b, acc = some b → d ≤ b.2)) := by
  induction refs with
  | nil =>
      intro acc
      refine ⟨by simp [allDistances], ?_⟩
      intro n d h
      simp only [List.foldl_nil] at h
      refine ⟨Or.inl h, by simp [allDistances], ?_⟩
      intro b hb; rw [h] at hb; cases hb; exact le_refl _
  | cons p refs ih =>
      intro acc
      simp only [List.foldl_cons]
      have hall : allDistances (p :: refs) = p.2 ++ allDistances refs := by
        simp [allDistances]
      constructor
      · rw [(ih (p.2.foldl (innerStep p.1) acc)).1, (inner_go p.1 p.2 acc).1, hall]
        constructor
        · rintro ⟨⟨h1, h2⟩, h3⟩
          exact ⟨h1, by simp [h2, h3]⟩
        · rintro ⟨h1, h2⟩
          simp only [List.append_eq_nil] at h2
          exact ⟨⟨h1, h2.1⟩, h2.2⟩
      · intro n d h
        obtain ⟨h1, h2, h3⟩ := (ih (p.2.foldl (innerStep p.1) acc)).2 n d h
        rcases h1 with h1 | h1
        · -- the result was already decided after scanning `p`
          obtain ⟨g1, g2, g3⟩ := (inner_go p.1 p.2 acc).2 n d h1
          refine ⟨?_, ?_, g3⟩
          · rcases g1 with g1 | g1
            · exact Or.inl g1
            · exact Or.inr ⟨p, by simp, g1.1.symm ▸ rfl, g1.2⟩
          · intro x hx
            rw [hall] at hx
            rcases List.mem_append.mp hx with hx | hx
            · exact g2 x hx
            · exact h2 x hx
        · -- the result comes from a later person
          obtain ⟨q, hq, hqn, hqd⟩ := h1
          refine ⟨Or.inr ⟨q, List.mem_cons_of_mem _ hq, hqn, hqd⟩, ?_, ?_⟩
          · cases hres : p.2.foldl (innerStep p.1) acc with
            | none =>
                have hne := (inner_go p.1 p.2 acc).1.mp hres
                intro x hx
                rw [hall] at hx
                rcases List.mem_append.mp hx with hx | hx
                · rw [hne.2] at hx; cases hx
                · exact h2 x hx
            | some c =>
                obtain ⟨n', d'⟩ := c
                obtain ⟨-, g2, -⟩ := (inner_go p.1 p.2 acc).2 n' d' hres
                have hdc : d ≤ d' := h3 (n', d') hres
                intro x hx
                rw [hall] at hx
                rcases List.mem_append.mp hx with hx | hx
                · exact le_trans hdc (g2 x hx)
                · exact h2 x hx
          · cases hres : p.2.foldl (innerStep p.1) acc with
            | none =>
                have hne := (inner_go p.1 p.2 acc).1.mp hres
                intro b hb
                rw [hne.1] at hb
                cases hb
            | some c =>
                obtain ⟨n', d'⟩ := c
                obtain ⟨-, -, g3⟩ := (inner_go p.1 p.2 acc).2 n' d' hres
                have hdc : d ≤ d' := h3 (n', d') hres
                intro b hb
                exact le_trans hdc (g3 b hb)

theorem scanRefs_eq_inner (refs : List (String × List ℚ)) :
    scanRefs refs = refs.foldl (fun acc p => p.2.foldl (innerStep p.1) acc) none := rfl

theorem scanRefs_none_iff (refs : List (String × List ℚ)) :
    scanRefs refs = none ↔ allDistances refs = [] := by
  rw [scanRefs_eq_inner]
  rw [(scan_go refs none).1]
  simp

theorem mem_allDistances {refs : List (String × List ℚ)}
    {p : String × List ℚ} {x : ℚ} (hp : p ∈ refs) (hx : x ∈ p.2) :
    x ∈ allDistances refs := by
  unfold allDistances
  rw [List.mem_flatten]
  exact ⟨p.2, List.mem_map.mpr ⟨p, hp, rfl⟩, hx⟩

theorem scanRefs_some_spec {refs : List (String × List ℚ)} {n : String} {d : ℚ}
    (h : scanRefs refs = some (n, d)) :
    (∃ p ∈ refs, p.1 = n ∧ d ∈ p.2) ∧ ∀ x ∈ allDistances refs, d ≤ x := by
  rw [scanRefs_eq_inner] at h
  obtain ⟨h1, h2, -⟩ := (scan_go refs none).2 n d h
  rcases h1 with h1 | h1
  · cases h1
  · exact ⟨h1, h2⟩

theorem classifyFace_eq_of_scan {tolerance : ℚ} {refs : List (String × List ℚ)}
    {n : String} {d : ℚ} (h : scanRefs refs = some (n, d)) :
    classifyFace tolerance refs =
      if n ≠ "" ∧ d ≤ tolerance then (n, 1 - d / tolerance)
      else ("Unknown", 0) := by
  unfold classifyFace
  rw [h]

end SmugVision

namespace SmugVision

/-- **C3.** For every coordinate and every loaded set of named regions,
`LocationResolver.find_match` returns `none` exactly when no region's
distance to the coordinate is at most its radius; otherwise it returns a
region whose distance is at most its radius and minimal among all matching
regions.  The result is, by construction, a pure function of the loaded
regions and the coordinate; `dist` abstracts `_haversine_distance`, so the
theorem holds for the haversine distance in particular. -/
theorem geoMatcher_find_correct (dist : ℚ → ℚ → ℚ → ℚ → ℚ)
    (locs : List CustomLocation) (lat lon : ℚ) :
    (findMatch dist locs lat lon = none ↔
      ∀ loc ∈ locs, ¬ dist lat lon loc.latitude loc.longitude ≤ loc.radius) ∧
    (∀ m, findMatch dist locs lat lon = some m →
      m.location ∈ locs ∧
      m.distance = dist lat lon m.location.latitude m.location.longitude ∧
      m.distance ≤ m.location.radius ∧
      ∀ loc ∈ locs, dist lat lon loc.latitude loc.longitude ≤ loc.radius →
        m.distance ≤ dist lat lon loc.latitude loc.longitude) := by
  have hinv := findMatch_inv dist locs lat lon
  constructor
  · cases hres : findMatch dist locs lat lon with
    | none =>
        rw [hres] at hinv
        exact ⟨fun _ => hinv, fun _ => rfl⟩
    | some m =>
        rw [hres] at hinv
        obtain ⟨hmem, hdist, hrad, -⟩ := hinv
        constructor
        · intro h; cases h
        · intro hall
          exact absurd (hdist ▸ hrad) (hall m.location hmem)
  · intro m hm
    rw [hm] at hinv
    exact hinv

/-- Concrete stand-in distance (squared euclidean) used only to witness
`geoMatcher_find_correct` on computable inputs. -/
def sqDist : ℚ → ℚ → ℚ → ℚ → ℚ :=
  fun lat1 lon1 lat2 lon2 =>
    (lat2 - lat1) * (lat2 - lat1) + (lon2 - lon1) * (lon2 - lon1)

/-- A concrete gazetteer region used in witnesses. -/
def regionA : CustomLocation := ⟨"A", 0, 0, 5, none, []⟩

/-- A second concrete gazetteer region used in witnesses. -/
def regionB : CustomLocation := ⟨"B", 1, 1, 10, none, []⟩

/-- Witness for `geoMatcher_find_correct`: on two concrete regions that
both contain the origin, the returned match is a member region within its
radius. -/
theorem geoMatcher_find_correct_witness :
    (⟨regionA, 0⟩ : LocationMatch).location ∈ [regionA, regionB] ∧
    (⟨regionA, 0⟩ : LocationMatch).distance ≤
      (⟨regionA, 0⟩ : LocationMatch).location.radius := by
  have h := (geoMatcher_find_correct sqDist [regionA, regionB] 0 0).2
    ⟨regionA, 0⟩ (by norm_num [findMatch, findStep, sqDist, regionA, regionB])
  exact ⟨h.1, h.2.2.1⟩

/-- **C4.** For every detected face, with `d` the smallest
`face_distance` to any reference encoding of any known person: if
`d ≤ tolerance` the face is classified as a person attaining `d` with
confidence `1 - d / tolerance`, otherwise as `"Unknown"` with confidence
`0`.  In particular, at distance `0.58` with tolerance `0.6` the confidence
is `1 - 0.58 / 0.6 = 1/30`, and at distance `0.61` the face is `"Unknown"`
with confidence `0`.  The hypotheses record that the tolerance is positive
(Python would raise `ZeroDivisionError` at `tolerance = 0`) and that person
names — directory names on disk — are non-empty, which
`load_reference_faces` guarantees for every reachable `reference_faces`
dictionary. -/
theorem faceRecognizer_classify_correct :
    (∀ (tol : ℚ) (refs : List (String × List ℚ)) (d : ℚ),
      0 < tol →
      (∀ p ∈ refs, p.1 ≠ "") →
      d ∈ allDistances refs →
      (∀ x ∈ allDistances refs, d ≤ x) →
      ((d ≤ tol →
        (classifyFace tol refs).2 = 1 - d / tol ∧
        ∃ p ∈ refs, (classifyFace tol refs).1 = p.1 ∧ d ∈ p.2) ∧
       (tol < d → classifyFace tol refs = ("Unknown", 0)))) ∧
    classifyFace (3/5) [("alice", [29/50])] = ("alice", 1/30) ∧
    classifyFace (3/5) [("alice", [61/100])] = ("Unknown", 0) := by
  refine ⟨?_, ?_, ?_⟩
  · intro tol refs d _htol hnames hd hmin
    cases hres : scanRefs refs with
    | none =>
        rw [scanRefs_none_iff] at hres
        rw [hres] at hd
        cases hd
    | some c =>
        obtain ⟨n', d'⟩ := c
        obtain ⟨⟨p, hp, hpn, hpd⟩, hmin'⟩ := scanRefs_some_spec hres
        have hdd : d' = d :=
          le_antisymm (hmin' d hd) (hmin d' (mem_allDistances hp hpd))
        subst hdd
        have hn : n' ≠ "" := hpn ▸ hnames p hp
        constructor
        · intro hdt
          rw [classifyFace_eq_of_scan hres, if_pos ⟨hn, hdt⟩]
          exact ⟨rfl, p, hp, hpn.symm, hpd⟩
        · intro htd
          rw [classifyFace_eq_of_scan hres, if_neg ?_]
          exact fun hcon => absurd hcon.2 (not_le.mpr htd)
  · have hscan : scanRefs [("alice", [29/50])] = some ("alice", 29/50) := rfl
    rw [classifyFace_eq_of_scan hscan, if_pos ⟨by simp, by norm_num⟩]
    norm_num
  · have hscan : scanRefs [("alice", [61/100])] = some ("alice", 61/100) := rfl
    rw [classifyFace_eq_of_scan hscan, if_neg ?_]
    rintro ⟨-, hcon⟩
    revert hcon
    norm_num

/-- Witness for `faceRecognizer_classify_correct`: one known person with a
single reference encoding at distance `29/50` and tolerance `3/5`. -/
theorem faceRecognizer_classify_correct_witness :
    (classifyFace (3/5) [("alice", [29/50])]).2 = 1 - (29/50) / (3/5) := by
  have h := faceRecognizer_classify_correct.1 (3/5) [("alice", [29/50])] (29/50)
    (by norm_num) (by simp) (by simp [allDistances])
    (by simp [allDistances])
  exact (h.1 (by norm_num)).1

theorem lowerMem_one_le_countCase {t : String} {l : List String}
    (h : lowerMem t l = true) : 1 ≤ countCase t l := by
  unfold countCase
  obtain ⟨k, hk, hke⟩ := lowerMem_iff.mp h
  have hm : pyLower t ∈ l.map pyLower :=
    List.mem_map.mpr ⟨k, hk, hke⟩
  have := List.count_pos_iff.mpr hm
  omega

theorem caseNodup_countCase_eq_one {t : String} {l : List String}
    (hn : caseNodup l) (h : lowerMem t l = true) : countCase t l = 1 := by
  unfold countCase
  obtain ⟨k, hk, hke⟩ := lowerMem_iff.mp h
  exact List.count_eq_one_of_mem hn (List.mem_map.mpr ⟨k, hk, hke⟩)

/-- **C10.** Marker-token membership is decided case-insensitively:
`AlbumImage.has_marker_tag` reports the marker present exactly when some
existing keyword equals the marker token up to letter case, so an item
stays skipped even when the stored tag's capitalization differs from the
configured marker token. -/
theorem hasMarkerTag_case_insensitive :
    ∀ (img : AlbumImage) (marker : String),
      img.hasMarkerTag marker = true ↔
        ∃ k ∈ img.keywords, pyLower k = pyLower marker := by
  intro img marker
  exact lowerMem_iff

/-- **C2, counterexample.** The claim that `_format_tags` "contains no two
tags equal up to letter case and contains the marker token exactly once"
fails when the preserved existing tag list itself already contains two
case-variants of a tag: with `preserve_existing` and existing tags
`["SmugVision", "smugvision"]`, marker `"smugvision"`, no AI tags and no
person names, both variants are kept, so the output has a case-duplicate
pair and the marker token twice. -/
theorem previewFormatTags_claim_counterexample :
    formatTagsPreview true [] ["SmugVision", "smugvision"] none "smugvision" =
      ["SmugVision", "smugvision"] ∧
    ¬ caseNodup
      (formatTagsPreview true [] ["SmugVision", "smugvision"] none "smugvision") ∧
    countCase "smugvision"
      (formatTagsPreview true [] ["SmugVision", "smugvision"] none "smugvision") = 2 := by
  refine ⟨by decide, by decide, by decide⟩

/-- **C2, amended.** `_format_tags` always contains the marker token at
least once; and whenever the inputs it preserves are themselves free of
case-duplicates (existing tags pairwise case-distinct, or
`preserve_existing` off), the output contains no two tags equal up to
letter case and contains the marker token exactly once. -/
theorem previewFormatTags_amended :
    ∀ (preserve : Bool) (aiTags existing : List String)
      (names : Option (List String)) (marker : String),
      1 ≤ countCase marker (formatTagsPreview preserve aiTags existing names marker) ∧
      ((preserve = false ∨ caseNodup existing) →
        caseNodup (formatTagsPreview preserve aiTags existing names marker) ∧
        countCase marker (formatTagsPreview preserve aiTags existing names marker) = 1) := by
  intro preserve aiTags existing names marker
  have hmem : lowerMem marker (formatTagsPreview preserve aiTags existing names marker) = true := by
    unfold formatTagsPreview
    exact addTagIfNew_mem_self
  constructor
  · exact lowerMem_one_le_countCase hmem
  · intro hstart
    have hbase : caseNodup (if preserve then existing else []) := by
      rcases hstart with hstart | hstart
      · simp [hstart, caseNodup]
      · by_cases hp : preserve
        · simpa [hp] using hstart
        · simp [hp, caseNodup]
    have hnodup : caseNodup (formatTagsPreview preserve aiTags existing names marker) := by
      unfold formatTagsPreview
      apply addTagIfNew_caseNodup
      cases names with
      | none => exact foldl_addTagIfNew_caseNodup hbase
      | some ns =>
          exact foldl_addTagIfNew_caseNodup (foldl_addTagIfNew_caseNodup hbase)
    exact ⟨hnodup, caseNodup_countCase_eq_one hnodup hmem⟩

/-- Witness for `previewFormatTags_amended`: concrete case-distinct inputs. -/
theorem previewFormatTags_amended_witness :
    caseNodup (formatTagsPreview true ["Dog"] ["cat"] (some ["Ann"]) "smugvision") ∧
    countCase "smugvision"
      (formatTagsPreview true ["Dog"] ["cat"] (some ["Ann"]) "smugvision") = 1 :=
  (previewFormatTags_amended true ["Dog"] ["cat"] (some ["Ann"]) "smugvision").2
    (Or.inr (by decide))

end SmugVision

namespace SmugVision

/-! ## Reverse-geocode display-string assembly
(src/smugvision/utils/exif.py lines 498-554 and, identically,
src/smugvision/utils/exif_optimized.py lines 196-331) -/

/-- The address components read out of the Nominatim raw response
(`raw_data['address']`); absent keys are `none`, and Python treats present
empty strings as falsy, which `pyOr` reflects. -/
structure Address where
  building : Option String := none
  amenity : Option String := none
  school : Option String := none
  university : Option String := none
  college : Option String := none
  city : Option String := none
  town : Option String := none
  village : Option String := none
  hamlet : Option String := none
  municipality : Option String := none
  county : Option String := none
  state : Option String := none
  region : Option String := none
  country : Option String := none
  deriving Repr, DecidableEq

/-- `address.get('city') or address.get('town') or address.get('village')
or address.get('hamlet') or address.get('municipality')`. -/
def cityOf (a : Address) : Option String :=
  pyOr a.city (pyOr a.town (pyOr a.village (pyOr a.hamlet a.municipality)))

/-- `address.get('state') or address.get('region')`. -/
def stateOf (a : Address) : Option String :=
  pyOr a.state a.region

/-- `address.get('building') or address.get('amenity') or
address.get('school') or address.get('university') or
address.get('college')` — the fallback venue lookup in the address fields. -/
def buildingOf (a : Address) : Option String :=
  pyOr a.building (pyOr a.amenity (pyOr a.school (pyOr a.university a.college)))

/-- `parts = []` then `if building_name: parts.append(building_name)`
(exif.py lines 510-514). -/
def venueStep (buildingName : String) : List String :=
  if buildingName ≠ "" then [buildingName] else []

/-- `if city and city not in parts: parts.append(city)` (exif.py lines
516-525). -/
def cityStep (parts : List String) (addr : Address) : List String :=
  match cityOf addr with
  | some c => if c ≠ "" ∧ c ∉ parts then parts ++ [c] else parts
  | none => parts

/-- The county handling of exif.py lines 527-533: when a county is present,
remove every occurrence of `" County"` (Python `str.replace` replaces all
occurrences), strip, and append unless already a part. -/
def countyStep (parts : List String) (addr : Address) : List String :=
  match addr.county with
  | some co =>
      if co ≠ "" then
        let cc := (co.replace " County" "").trim
        if cc ∉ parts then parts ++ [cc] else parts
      else parts
  | none => parts

/-- `if state: parts.append(state)` (exif.py lines 535-538) — no duplicate
check. -/
def stateStep (parts : List String) (addr : Address) : List String :=
  match stateOf addr with
  | some s => if s ≠ "" then parts ++ [s] else parts
  | none => parts

/-- `if country: parts.append(country)` (exif.py lines 540-543) — no
duplicate check. -/
def countryStep (parts : List String) (addr : Address) : List String :=
  match addr.country with
  | some c => if c ≠ "" then parts ++ [c] else parts
  | none => parts

/-- The `parts` assembly of `reverse_geocode` (exif.py lines 508-543, same
code in exif_optimized.py lines 278-311): venue name, then city (if not
already a part), then county with every occurrence of `" County"` removed
(if not already a part), then state, then country — the latter two appended
without a duplicate check. -/
def buildParts (buildingName : String) (addr : Address) : List String :=
  countryStep (stateStep (countyStep (cityStep (venueStep buildingName) addr) addr) addr) addr

/-- `", ".join(parts)` when `parts` is non-empty, else the fallback
`location.address` string (exif.py lines 545-554, exif_optimized.py lines
313-331). -/
def buildLocationString (buildingName : String) (addr : Address)
    (fallbackAddress : String) : String :=
  let parts := buildParts buildingName addr
  if parts = [] then fallbackAddress else String.intercalate ", " parts

/-- What the claim says the assembly does (definition follows the spec's
words, for comparison with `buildParts`): the most-specific-first,
duplicate-suppressed join of venue, city, county with the suffix
`" County"` stripped, state and country, omitting absent components. -/
def claimDisplayParts (buildingName : String) (addr : Address) : List String :=
  let addComponent : List String → Option String → List String := fun parts c =>
    match c with
    | some s => if s ≠ "" ∧ s ∉ parts then parts ++ [s] else parts
    | none => parts
  let stripCountySuffix : String → String := fun s =>
    if s.endsWith " County" then s.dropRight 7 else s
  let parts : List String := []
  let parts := addComponent parts (if buildingName ≠ "" then some buildingName else none)
  let parts := addComponent parts (cityOf addr)
  let parts := addComponent parts ((addr.county).map stripCountySuffix)
  let parts := addComponent parts (stateOf addr)
  addComponent parts addr.country

/-- A concrete geocoded address whose city and country carry the same
name, as for the country of Luxembourg. -/
def addrLuxembourg : Address :=
  { city := some "Luxembourg", country := some "Luxembourg" }

/-- The Louisville scenario address from the spec. -/
def addrLouisville : Address :=
  { city := some "Louisville", state := some "Kentucky", country := some "USA" }

/-- **C6, counterexample.** The display string is *not* duplicate-suppressed
across all components: state and country are appended without a duplicate
check, so a geocoded address with city `"Luxembourg"` and country
`"Luxembourg"` (no venue, county or state) yields
`"Luxembourg, Luxembourg"`, while the claimed duplicate-suppressed join
yields `"Luxembourg"`. -/
theorem reverseGeocode_display_claim_counterexample :
    buildLocationString "" addrLuxembourg "fallback" = "Luxembourg, Luxembourg" ∧
    String.intercalate ", " (claimDisplayParts "" addrLuxembourg) = "Luxembourg" ∧
    buildLocationString "" addrLuxembourg "fallback" ≠
      String.intercalate ", " (claimDisplayParts "" addrLuxembourg) := by
  refine ⟨by decide, by decide, by decide⟩

/-- Amended-specification description of the city component: the first
present city-like field, kept only when not already among the earlier
parts. -/
def cityBlock (parts : List String) (addr : Address) : List String :=
  match cityOf addr with
  | some c => if c ≠ "" ∧ c ∉ parts then [c] else []
  | none => []

/-- Amended-specification description of the county component: the county
with every occurrence of `" County"` removed and trimmed, kept only when
not already among the earlier parts. -/
def countyBlock (parts : List String) (addr : Address) : List String :=
  match addr.county with
  | some co =>
      if co ≠ "" ∧ (co.replace " County" "").trim ∉ parts
      then [(co.replace " County" "").trim] else []
  | none => []

/-- Amended-specification description of the state component: appended
whenever present, with no duplicate check. -/
def stateBlock (addr : Address) : List String :=
  match stateOf addr with
  | some s => if s ≠ "" then [s] else []
  | none => []

/-- Amended-specification description of the country component: appended
whenever present, with no duplicate check. -/
def countryBlock (addr : Address) : List String :=
  match addr.country with
  | some c => if c ≠ "" then [c] else []
  | none => []

theorem cityStep_eq (p : List String) (addr : Address) :
    cityStep p addr = p ++ cityBlock p addr := by
  unfold cityStep cityBlock
  cases cityOf addr with
  | none => simp
  | some c =>
      dsimp only
      split_ifs <;> simp

theorem countyStep_eq (p : List String) (addr : Address) :
    countyStep p addr = p ++ countyBlock p addr := by
  unfold countyStep countyBlock
  cases addr.county with
  | none => simp
  | some co =>
      dsimp only
      split_ifs <;> simp_all

theorem stateStep_eq (p : List String) (addr : Address) :
    stateStep p addr = p ++ stateBlock addr := by
  unfold stateStep stateBlock
  cases stateOf addr with
  | none => simp
  | some s =>
      dsimp only
      split_ifs <;> simp

theorem countryStep_eq (p : List String) (addr : Address) :
    countryStep p addr = p ++ countryBlock addr := by
  unfold countryStep countryBlock
  cases addr.country with
  | none => simp
  | some c =>
      dsimp only
      split_ifs <;> simp

/-- **C6, amended.** The display string is the comma-join, most specific
first, of: venue name (if any), city/town/village/hamlet/municipality,
county with every occurrence of `" County"` removed (and surrounding
whitespace trimmed), state, and country, omitting absent components —
duplicate suppression is applied only to the city and county components
(against the parts already collected); state and country are appended
whenever present.  In particular, for city `"Louisville"`, state
`"Kentucky"`, country `"USA"`, no venue and no nearby POI, the display
string is `"Louisville, Kentucky, USA"`. -/
theorem reverseGeocode_display_amended :
    (∀ (buildingName : String) (addr : Address),
      buildParts buildingName addr =
        venueStep buildingName ++
        cityBlock (venueStep buildingName) addr ++
        countyBlock
          (venueStep buildingName ++ cityBlock (venueStep buildingName) addr) addr ++
        stateBlock addr ++
        countryBlock addr) ∧
    buildLocationString "" addrLouisville "fallback" = "Louisville, Kentucky, USA" := by
  constructor
  · intro buildingName addr
    unfold buildParts
    rw [cityStep_eq, countyStep_eq, stateStep_eq, countryStep_eq]
  · decide

end SmugVision

namespace SmugVision

/-! ## `reverse_geocode` (src/smugvision/utils/exif.py, lines 319-572) and
`search_nearby_pois_overpass` (src/smugvision/utils/exif_optimized.py,
lines 40-135) — error handling -/

/-- An exception raised by an external geocoding / POI / input call:
`GeocoderTimedOut`, `GeocoderServiceError`, or any other `Exception`
(exif.py catches the first two at line 556 and everything else at the
outer `except Exception` of line 568; per-term search errors are caught at
line 424). -/
inductive PyErr where
  | timeout
  | serviceError
  | other (msg : String)
  deriving Repr, DecidableEq

/-- One `geolocator.geocode` search result (exif.py lines 400-423): its
stripped candidate name would be read from `raw['name']`, and `dist` is the
haversine distance to the query point computed at lines 405-412 (kept as
data because its float trigonometry is external to the control flow). -/
structure SearchResult where
  name : String
  dist : ℚ
  deriving Repr, DecidableEq

/-- The successful payload of `geolocator.reverse` (exif.py lines 352-367):
the raw `name`, the address dictionary, and the full `location.address`
fallback string. -/
structure RawLoc where
  name : String
  address : Address
  fullAddress : String
  deriving Repr, DecidableEq

/-- The external calls `reverse_geocode` makes, as oracle data:
whether `geopy` imports, the outcome of `geolocator.reverse`, the outcome
of each venue-type search, and the outcome of the interactive `input()`
prompt. -/
structure GeoOracle where
  geopyAvailable : Bool
  reverseResult : Except PyErr (Option RawLoc)
  searchResult : String → Except PyErr (List SearchResult)
  userInput : Except PyErr String

/-- `all_venue_types` (exif.py lines 373-385). -/
def allVenueTypes : List String :=
  ["restaurant", "cafe", "coffee", "bar", "pub", "brewery",
   "theater", "theatre", "cinema", "venue", "hall", "auditorium",
   "museum", "gallery", "library",
   "school", "university", "college",
   "hotel", "motel", "resort",
   "shop", "store", "market", "mall",
   "gym", "fitness", "sports",
   "park", "stadium", "arena",
   "church", "temple", "mosque", "synagogue",
   "hospital", "clinic", "pharmacy",
   "bank", "office", "business"]

/-- Stable insertion of `v` into a list ascending by `key`, inserting after
equal keys — together with `sortByKey` this models Python's stable
`list.sort`. -/
def insertByKey {α : Type} (key : α → ℚ) (v : α) : List α → List α
  | [] => [v]
  | w :: ws => if key w ≤ key v then w :: insertByKey key v ws else v :: w :: ws

/-- Stable sort ascending by `key`, modelling `list.sort(key=...)`. -/
def sortByKey {α : Type} (key : α → ℚ) : List α → List α
  | [] => []
  | v :: vs => insertByKey key v (sortByKey key vs)

/-- The venue-collection loop of `reverse_geocode` (exif.py lines 387-426):
for each venue type, search; a per-term failure is caught and skipped;
results closer than 200 m with a non-empty stripped name are collected,
de-duplicated by name. -/
def collectVenues (search : String → Except PyErr (List SearchResult)) :
    List (String × ℚ) :=
  allVenueTypes.foldl
    (fun acc term =>
      match search term with
      | .error _ => acc
      | .ok results =>
          results.foldl
            (fun acc r =>
              if r.dist < 200 then
                let nm := r.name.trim
                if nm ≠ "" ∧ ¬ acc.any (fun v => v.1 = nm) then acc ++ [(nm, r.dist)]
                else acc
              else acc)
            acc)
    []

/-- Venue selection among several candidates (exif.py lines 431-496):
non-interactive runs take the closest; interactive runs read a 1-based
selection, falling back to the closest on empty, non-numeric or
out-of-range input, or when `input()` raises `EOFError` /
`KeyboardInterrupt`. -/
def chooseVenue (interactive : Bool) (ui : Except PyErr String)
    (venues : List (String × ℚ)) : String :=
  match venues with
  | [] => ""
  | v :: rest =>
      if rest.isEmpty then v.1
      else if interactive then
        match ui with
        | .error _ => v.1
        | .ok input0 =>
            let choice := input0.trim
            if choice ≠ "" ∧ choice.all Char.isDigit then
              let k := (choice.toNat?).getD 0
              if 1 ≤ k ∧ k ≤ venues.length then ((v :: rest).getD (k - 1) v).1
              else v.1
            else v.1
      else v.1

/-- `reverse_geocode` (exif.py lines 319-572): `none` when `geopy` is
unavailable, when the reverse call fails (`GeocoderTimedOut` /
`GeocoderServiceError` at line 556, any other exception at line 568), or
when the service returns no location; otherwise the venue name is resolved
(raw name, then POI search, then address fields) and the display string is
assembled by `buildLocationString`. -/
def reverseGeocode (o : GeoOracle) (interactive : Bool) : Option String :=
  if ¬ o.geopyAvailable then none
  else
    match o.reverseResult with
    | .error _ => none
    | .ok none => none
    | .ok (some loc) =>
        let building0 := loc.name.trim
        let building1 :=
          if building0 = "" then
            let venues := sortByKey Prod.snd (collectVenues o.searchResult)
            match venues with
            | [] => ""
            | _ :: _ => chooseVenue interactive o.userInput venues
          else building0
        let building2 :=
          if building1 = "" then (buildingOf loc.address).getD ""
          else building1
        some (buildLocationString building2 loc.address loc.fullAddress)

/-- One Overpass element (exif_optimized.py lines 91-118): stripped `name`
tag, whether it carries usable coordinates (`lat`/`lon` or `center`), the
`calculate_distance` value to the query point (as data), and its POI type. -/
structure OElem where
  name : String
  hasCoords : Bool
  dist : ℚ
  poiType : String
  deriving Repr, DecidableEq

/-- An entry of the venue list returned by `search_nearby_pois_overpass`. -/
structure Venue where
  name : String
  dist : ℚ
  vtype : String
  deriving Repr, DecidableEq

/-- `search_nearby_pois_overpass` (exif_optimized.py lines 40-135): any
exception yields `[]` (lines 133-135); a non-200 HTTP status yields `[]`
(lines 129-131); otherwise named elements with coordinates within the
radius are collected and sorted by distance. -/
def searchNearbyPoisOverpass (response : Except PyErr (ℕ × List OElem))
    (radius : ℚ) : List Venue :=
  match response with
  | .error _ => []
  | .ok (status, elems) =>
      if status = 200 then
        sortByKey Venue.dist
          (elems.foldl
            (fun acc e =>
              if e.name.trim = "" then acc
              else if ¬ e.hasCoords then acc
              else if e.dist ≤ radius then acc ++ [⟨e.name.trim, e.dist, e.poiType⟩]
              else acc)
            [])
      else []

/-- **C7.** A failure or timeout of the reverse-geocoding service yields a
`none` result, and a failure (exception or non-200 status) of the
point-of-interest search yields an empty venue list.  Neither call
propagates an exception to its caller: both embedded functions are total
on every oracle outcome, returning plain `Option String` / `List Venue`
values, mirroring the `except` handlers at their component boundaries. -/
theorem geocode_failures_degrade :
    (∀ (o : GeoOracle) (interactive : Bool) (e : PyErr),
      o.reverseResult = Except.error e → reverseGeocode o interactive = none) ∧
    (∀ (e : PyErr) (radius : ℚ),
      searchNearbyPoisOverpass (Except.error e) radius = []) ∧
    (∀ (status : ℕ) (elems : List OElem) (radius : ℚ), status ≠ 200 →
      searchNearbyPoisOverpass (Except.ok (status, elems)) radius = []) := by
  refine ⟨?_, ?_, ?_⟩
  · intro o interactive e he
    unfold reverseGeocode
    rw [he]
    by_cases hg : o.geopyAvailable <;> simp [hg]
  · intro e radius
    rfl
  · intro status elems radius hs
    unfold searchNearbyPoisOverpass
    simp [hs]

/-- A concrete oracle whose reverse-geocode call times out. -/
def timeoutOracle : GeoOracle :=
  { geopyAvailable := true
    reverseResult := Except.error PyErr.timeout
    searchResult := fun _ => Except.ok []
    userInput := Except.ok "" }

/-- Witness for `geocode_failures_degrade`: a timed-out reverse call and a
failed / non-200 POI search on concrete inputs. -/
theorem geocode_failures_degrade_witness :
    reverseGeocode timeoutOracle false = none ∧
    searchNearbyPoisOverpass (Except.error PyErr.timeout) 200 = [] ∧
    searchNearbyPoisOverpass (Except.ok (500, [⟨"cafe", true, 10, "amenity"⟩])) 200 = [] :=
  ⟨geocode_failures_degrade.1 timeoutOracle false PyErr.timeout rfl,
   geocode_failures_degrade.2.1 PyErr.timeout 200,
   geocode_failures_degrade.2.2 500 [⟨"cafe", true, 10, "amenity"⟩] 200 (by decide)⟩

end SmugVision

namespace SmugVision

/-! ## `FaceRecognizer.load_reference_faces` cache validation
(src/smugvision/face/recognizer.py, lines 220-347 and 115-127) -/

/-- One reference image file as seen at load time: its dictionary key
`str(image_path.resolve())`, its `image_path.suffix`, its
`image_path.name`, and the `_get_file_fingerprint` value recomputed for it
(recognizer.py lines 115-127: the md5 of `"{path}|{size}|{mtime}"`, so any
size or mtime change changes it). -/
structure RefFile where
  key : String
  suffix : String
  filename : String
  fingerprint : String
  deriving Repr, DecidableEq

/-- One person subdirectory of the reference directory, with the files it
contains. -/
structure PersonDir where
  name : String
  files : List RefFile
  deriving Repr, DecidableEq

/-- One entry of `manifest['files']` (recognizer.py lines 319-323). -/
structure ManifestEntry where
  fingerprint : String
  person : String
  filename : String
  deriving Repr, DecidableEq

/-- How a processed reference file got its encoding. -/
inductive Provenance where
  | fromCache
  | freshEncoded
  | failed
  deriving Repr, DecidableEq

/-- Instrumentation record for one processed (image-suffixed) file:
which person directory it was in, its key, its recomputed fingerprint, and
whether the cached encoding was reused, a fresh encoding computed, or
encoding failed (no face / exception → skipped). -/
structure LogEntry where
  person : String
  key : String
  fingerprint : String
  prov : Provenance
  deriving Repr, DecidableEq

/-- The mutable state threaded through the load loop: the
`cached_encodings` dictionary (updated in place at line 308), the
`new_manifest_files` dictionary, and the instrumentation log. -/
structure LoadState where
  encodings : List (String × ℤ)
  manifest : List (String × ManifestEntry)
  log : List LogEntry
  deriving Repr, DecidableEq

/-- `image_extensions` (recognizer.py line 251). -/
def imageExtensions : List String :=
  [".jpg", ".jpeg", ".png", ".heic", ".heif"]

/-- The body of the `for image_path in person_dir.iterdir()` loop
(recognizer.py lines 275-323): skip non-image suffixes; reuse the cached
encoding only when `use_cache` holds, the cached fingerprint equals the
recomputed one, the cached person name equals the directory name, and the
key is present in `cached_encodings`; otherwise encode fresh (`encode`
models `_encode_face`, `none` covering both "no face found" and a caught
exception, line 302-316), storing the fresh encoding back into the cache
dictionary when `use_cache`.  Every processed image file that yields an
encoding gets a `new_manifest_files` entry. -/
def processFile (useCache : Bool) (encode : String → Option ℤ)
    (manifest0 : List (String × ManifestEntry)) (personName : String)
    (acc : LoadState × List ℤ) (f : RefFile) : LoadState × List ℤ :=
  let (st, pencs) := acc
  if ¬ (imageExtensions.contains (pyLower f.suffix)) then (st, pencs)
  else
    let entry0 := manifest0.lookup f.key
    if useCache = true ∧
        entry0.map ManifestEntry.fingerprint = some f.fingerprint ∧
        entry0.map ManifestEntry.person = some personName ∧
        (st.encodings.lookup f.key).isSome then
      let enc := (st.encodings.lookup f.key).getD 0
      ({ st with
          manifest := st.manifest ++ [(f.key, ⟨f.fingerprint, personName, f.filename⟩)],
          log := st.log ++ [⟨personName, f.key, f.fingerprint, Provenance.fromCache⟩] },
        pencs ++ [enc])
    else
      match encode f.key with
      | some enc =>
          ({ encodings := if useCache then (f.key, enc) :: st.encodings else st.encodings,
             manifest := st.manifest ++ [(f.key, ⟨f.fingerprint, personName, f.filename⟩)],
             log := st.log ++ [⟨personName, f.key, f.fingerprint, Provenance.freshEncoded⟩] },
            pencs ++ [enc])
      | none =>
          ({ st with
              log := st.log ++ [⟨personName, f.key, f.fingerprint, Provenance.failed⟩] },
            pencs)

/-- `FaceRecognizer.load_reference_faces` (recognizer.py lines 220-347):
iterate the person directories, process each file through the cache check,
and collect each person's encodings when non-empty.  `manifest0` and
`encodings0` are the cache loaded by `_load_cache` (empty when absent,
version-mismatched, corrupt, or `use_cache` is off). -/
def loadReferenceFaces (useCache : Bool) (encode : String → Option ℤ)
    (manifest0 : List (String × ManifestEntry)) (encodings0 : List (String × ℤ))
    (dirs : List PersonDir) : List (String × List ℤ) × LoadState :=
  dirs.foldl
    (fun acc p =>
      let (refs, st) := acc
      let r := p.files.foldl (processFile useCache encode manifest0 p.name) (st, [])
      (if r.2 ≠ [] then refs ++ [(p.name, r.2)] else refs, r.1))
    ([], ⟨encodings0, [], []⟩)

/-- The invariant carried through the load loop: every logged reuse was
justified by the stored manifest; every non-reuse ran the encoder; every
file whose stored manifest entry matches and whose key was cached is
reused; and the key set of the encodings dictionary only grows. -/
def CacheInv (useCache : Bool) (encode : String → Option ℤ)
    (manifest0 : List (String × ManifestEntry)) (encodings0 : List (String × ℤ))
    (st : LoadState) : Prop :=
  (∀ e ∈ st.log, e.prov = Provenance.fromCache →
    useCache = true ∧
    ∃ m, manifest0.lookup e.key = some m ∧
      m.fingerprint = e.fingerprint ∧ m.person = e.person) ∧
  (∀ e ∈ st.log, e.prov ≠ Provenance.fromCache →
    (∃ v, encode e.key = some v ∧ e.prov = Provenance.freshEncoded) ∨
    (encode e.key = none ∧ e.prov = Provenance.failed)) ∧
  (∀ e ∈ st.log, useCache = true →
    (∃ m, manifest0.lookup e.key = some m ∧
      m.fingerprint = e.fingerprint ∧ m.person = e.person) →
    (encodings0.lookup e.key).isSome = true →
    e.prov = Provenance.fromCache) ∧
  (∀ k, (encodings0.lookup k).isSome = true → (st.encodings.lookup k).isSome = true)

theorem forall_mem_append_singleton {α : Type} {P : α → Prop} {l : List α} {x : α}
    (hl : ∀ e ∈ l, P e) (hx : P x) : ∀ e ∈ l ++ [x], P e := by
  intro e he
  rcases List.mem_append.mp he with he | he
  · exact hl e he
  · rw [List.mem_singleton] at he
    subst he
    exact hx

theorem lookup_cons_isSome {k key : String} {enc : ℤ} {l : List (String × ℤ)}
    (h : (l.lookup k).isSome = true) :
    ((((key, enc)) :: l).lookup k).isSome = true := by
  simp only [List.lookup]
  cases h2 : (k == key) <;> simp [h2, h]

theorem manifest_match_of_map {manifest0 : List (String × ManifestEntry)}
    {key fp pn : String}
    (hf : (manifest0.lookup key).map ManifestEntry.fingerprint = some fp)
    (hp : (manifest0.lookup key).map ManifestEntry.person = some pn) :
    ∃ m, manifest0.lookup key = some m ∧ m.fingerprint = fp ∧ m.person = pn := by
  cases hm : manifest0.lookup key with
  | none => rw [hm] at hf; cases hf
  | some m =>
      rw [hm] at hf hp
      simp only [Option.map_some', Option.some.injEq] at hf hp
      exact ⟨m, rfl, hf, hp⟩

theorem manifest_match_to_map {manifest0 : List (String × ManifestEntry)}
    {key fp pn : String}
    (h : ∃ m, manifest0.lookup key = some m ∧ m.fingerprint = fp ∧ m.person = pn) :
    (manifest0.lookup key).map ManifestEntry.fingerprint = some fp ∧
    (manifest0.lookup key).map ManifestEntry.person = some pn := by
  obtain ⟨m, hm, h1, h2⟩ := h
  rw [hm]
  simp [h1, h2]

theorem processFile_inv {useCache : Bool} {encode : String → Option ℤ}
    {manifest0 : List (String × ManifestEntry)} {encodings0 : List (String × ℤ)}
    {st : LoadState} (pn : String) (pencs : List ℤ) (f : RefFile)
    (h : CacheInv useCache encode manifest0 encodings0 st) :
    CacheInv useCache encode manifest0 encodings0
      (processFile useCache encode manifest0 pn (st, pencs) f).1 := by
  obtain ⟨hA, hB, hC, hM⟩ := h
  simp only [processFile]
  split
  · exact ⟨hA, hB, hC, hM⟩
  · split
    · -- cached encoding reused
      rename_i hcond
      obtain ⟨hu, hf, hp, hs⟩ := hcond
      obtain ⟨m, hm, hmf, hmp⟩ := manifest_match_of_map hf hp
      refine ⟨?_, ?_, ?_, hM⟩
      · refine forall_mem_append_singleton hA ?_
        intro _
        exact ⟨hu, m, hm, hmf, hmp⟩
      · refine forall_mem_append_singleton hB ?_
        intro hne
        exact absurd rfl hne
      · refine forall_mem_append_singleton hC ?_
        intro _ _ _
        rfl
    · -- cache miss: encode fresh
      rename_i hncond
      split
      · -- encoder produced an encoding
        rename_i enc henc
        refine ⟨?_, ?_, ?_, ?_⟩
        · refine forall_mem_append_singleton hA ?_
          intro hpc
          simp at hpc
        · refine forall_mem_append_singleton hB ?_
          intro _
          exact Or.inl ⟨enc, henc, rfl⟩
        · refine forall_mem_append_singleton hC ?_
          intro hu hstored hk0
          exact absurd ⟨hu, (manifest_match_to_map hstored).1,
            (manifest_match_to_map hstored).2, hM f.key hk0⟩ hncond
        · intro k hk
          by_cases hu : useCache = true
          · simp only [hu, if_true]
            exact lookup_cons_isSome (hM k hk)
          · simp only [hu, if_false]
            exact hM k hk
      · -- encoder found no face / raised: file skipped
        rename_i henc
        refine ⟨?_, ?_, ?_, hM⟩
        · refine forall_mem_append_singleton hA ?_
          intro hpc
          simp at hpc
        · refine forall_mem_append_singleton hB ?_
          intro _
          exact Or.inr ⟨henc, rfl⟩
        · refine forall_mem_append_singleton hC ?_
          intro hu hstored hk0
          exact absurd ⟨hu, (manifest_match_to_map hstored).1,
            (manifest_match_to_map hstored).2, hM f.key hk0⟩ hncond

theorem foldFiles_inv {useCache : Bool} {encode : String → Option ℤ}
    {manifest0 : List (String × ManifestEntry)} {encodings0 : List (String × ℤ)}
    (pn : String) (files : List RefFile) :
    ∀ acc : LoadState × List ℤ,
      CacheInv useCache encode manifest0 encodings0 acc.1 →
      CacheInv useCache encode manifest0 encodings0
        (files.foldl (processFile useCache encode manifest0 pn) acc).1 := by
  induction files with
  | nil => intro acc h; exact h
  | cons f fs ih =>
      intro acc h
      obtain ⟨st, pencs⟩ := acc
      simp only [List.foldl_cons]
      exact ih _ (processFile_inv pn pencs f h)

theorem loadReferenceFaces_inv (useCache : Bool) (encode : String → Option ℤ)
    (manifest0 : List (String × ManifestEntry)) (encodings0 : List (String × ℤ))
    (dirs : List PersonDir) :
    CacheInv useCache encode manifest0 encodings0
      (loadReferenceFaces useCache encode manifest0 encodings0 dirs).2 := by
  unfold loadReferenceFaces
  have hgen :
      ∀ (acc : List (String × List ℤ) × LoadState),
        CacheInv useCache encode manifest0 encodings0 acc.2 →
        CacheInv useCache encode manifest0 encodings0
          ((dirs.foldl
            (fun acc p =>
              let r := p.files.foldl (processFile useCache encode manifest0 p.name) (acc.2, [])
              (if r.2 ≠ [] then acc.1 ++ [(p.name, r.2)] else acc.1, r.1)) acc)).2 := by
    induction dirs with
    | nil => intro acc h; exact h
    | cons p ps ih =>
        intro acc h
        simp only [List.foldl_cons]
        apply ih
        exact foldFiles_inv p.name p.files (acc.2, []) h
  have hinit : CacheInv useCache encode manifest0 encodings0 ⟨encodings0, [], []⟩ := by
    refine ⟨?_, ?_, ?_, fun k hk => hk⟩ <;>
      · intro e he
        exact absurd he (List.not_mem_nil e)
  exact hgen ([], ⟨encodings0, [], []⟩) hinit

/-- **C8.** A cached encoding is reused for a reference file only if the
stored fingerprint equals the fingerprint recomputed at load time and the
stored person name equals the person directory the file currently lives in
(and the key is present in the cached encodings with `use_cache` on);
otherwise the encoder runs afresh on that file.  Conversely, a file whose
stored manifest entry matches its recomputed fingerprint and person is
reused no matter what happened to the other files, so changing one file's
content (which changes its size or mtime, hence its fingerprint)
invalidates only that file's entry. -/
theorem faceCache_reuse_correct :
    ∀ (useCache : Bool) (encode : String → Option ℤ)
      (manifest0 : List (String × ManifestEntry)) (encodings0 : List (String × ℤ))
      (dirs : List PersonDir),
      (∀ e ∈ (loadReferenceFaces useCache encode manifest0 encodings0 dirs).2.log,
        e.prov = Provenance.fromCache →
        useCache = true ∧
        ∃ m, manifest0.lookup e.key = some m ∧
          m.fingerprint = e.fingerprint ∧ m.person = e.person) ∧
      (∀ e ∈ (loadReferenceFaces useCache encode manifest0 encodings0 dirs).2.log,
        e.prov ≠ Provenance.fromCache →
        (∃ v, encode e.key = some v ∧ e.prov = Provenance.freshEncoded) ∨
        (encode e.key = none ∧ e.prov = Provenance.failed)) ∧
      (∀ e ∈ (loadReferenceFaces useCache encode manifest0 encodings0 dirs).2.log,
        useCache = true →
        (∃ m, manifest0.lookup e.key = some m ∧
          m.fingerprint = e.fingerprint ∧ m.person = e.person) →
        (encodings0.lookup e.key).isSome = true →
        e.prov = Provenance.fromCache) := by
  intro useCache encode manifest0 encodings0 dirs
  obtain ⟨hA, hB, hC, -⟩ :=
    loadReferenceFaces_inv useCache encode manifest0 encodings0 dirs
  exact ⟨hA, hB, hC⟩

/-- Witness scenario for `faceCache_reuse_correct`: person `"p"` with two
reference images; `"k1"` is unchanged (stored fingerprint `"a"` matches),
`"k2"` changed on disk (stored `"b"`, recomputed `"b2"`). -/
def wFile1 : RefFile := ⟨"k1", ".jpg", "f1.jpg", "a"⟩

/-- Second witness file, with a changed fingerprint. -/
def wFile2 : RefFile := ⟨"k2", ".jpg", "f2.jpg", "b2"⟩

/-- Witness manifest: both keys present, `"k2"` stored with the old
fingerprint. -/
def wManifest : List (String × ManifestEntry) :=
  [("k1", ⟨"a", "p", "f1.jpg"⟩), ("k2", ⟨"b", "p", "f2.jpg"⟩)]

/-- Witness cached encodings for both keys. -/
def wEncodings : List (String × ℤ) := [("k1", 7), ("k2", 8)]

/-- Witness reference directory: one person with both files. -/
def wDirs : List PersonDir := [⟨"p", [wFile1, wFile2]⟩]

/-- Witness encoder. -/
def wEncode : String → Option ℤ := fun _ => some 42

/-- Witness for `faceCache_reuse_correct`: in the concrete scenario the
unchanged file is reused from cache and the changed file is freshly
encoded. -/
theorem faceCache_reuse_correct_witness :
    ((⟨"p", "k1", "a", Provenance.fromCache⟩ : LogEntry).prov = Provenance.fromCache) ∧
    ((∃ v, wEncode "k2" = some v ∧
        (⟨"p", "k2", "b2", Provenance.freshEncoded⟩ : LogEntry).prov = Provenance.freshEncoded) ∨
      (wEncode "k2" = none ∧
        (⟨"p", "k2", "b2", Provenance.freshEncoded⟩ : LogEntry).prov = Provenance.failed)) :=
  ⟨(faceCache_reuse_correct true wEncode wManifest wEncodings wDirs).2.2
      ⟨"p", "k1", "a", Provenance.fromCache⟩ (by decide) rfl
      ⟨⟨"a", "p", "f1.jpg"⟩, rfl, rfl, rfl⟩ rfl,
    (faceCache_reuse_correct true wEncode wManifest wEncodings wDirs).2.1
      ⟨"p", "k2", "b2", Provenance.freshEncoded⟩ (by decide) (by decide)⟩

end SmugVision

namespace SmugVision

/-! ## `ImageProcessor` (src/smugvision/processing/processor.py)

`processor.py` imports `MetadataFormatter` from
`smugvision/processing/metadata.py` and `resolve_location_with_custom`
from `smugvision/utils/exif.py`; neither definition is present under
`src/` (only their callers are), so the formatter is modelled from the
spec below and the location resolution enters as oracle data. -/

/-- Modelled from the spec: `MetadataFormatter.format_tags`
(`smugvision/processing/metadata.py`, absent from `src/`).  Spec §4.6:
existing tags are retained when "preserve existing" is enabled and merged
with generated tags, person names, and location-derived tags, each added
only if not already present case-insensitively; the marker token is always
present in the final tag set. -/
def formatTags (preserveExisting : Bool) (markerTag : String)
    (aiTags existingTags personNames : List String)
    (locationTags : Option (List String)) : List String :=
  let tags := if preserveExisting then existingTags else []
  let tags := aiTags.foldl addTagIfNew tags
  let tags := personNames.foldl addTagIfNew tags
  let tags := (locationTags.getD []).foldl addTagIfNew tags
  addTagIfNew tags markerTag

/-- Modelled from the spec: `MetadataFormatter.format_caption`
(`smugvision/processing/metadata.py`, absent from `src/`).  Spec §4.6:
when "preserve existing" is enabled the existing caption is retained and
the generated caption appended, never silently overwritten. -/
def formatCaption (preserveExisting : Bool) (aiCaption : String)
    (existingCaption : Option String) : String :=
  match existingCaption with
  | some ec => if preserveExisting ∧ ec ≠ "" then ec ++ "\n\n" ++ aiCaption else aiCaption
  | none => aiCaption

/-- The configuration keys `process_image` reads. -/
structure ProcConfig where
  markerTag : String
  useExifLocation : Bool
  useAliasesAsTags : Bool
  preserveExisting : Bool
  faceRecognition : Bool

/-- The per-item outcomes of the external calls `process_image` makes,
as oracle data: `_download_image` (which catches its own exceptions and
returns `None` on failure, lines 490-519), the cached-path fallback and
existence check (lines 319-327), EXIF extraction (line 345, its
coordinates when found), `resolve_location_with_custom` (line 366, absent
from `src/`, may raise), `get_person_names` (line 404, may raise),
caption/tag generation (lines 418, 430, may raise), and the SmugMug
metadata update (line 473, may raise). -/
structure ItemEnv where
  downloadResult : Option String
  cachedPath : String
  pathExists : String → Bool
  exifCoords : Option (ℚ × ℚ)
  resolveLocation : Except String (Option String × List String × Bool)
  personNames : Except String (List String)
  generateCaption : Except String String
  generateTags : Except String (List String)
  updateMetadata : Except String Unit

/-- The externally visible side effects of one `process_image` run, in
order. -/
inductive Effect where
  | download
  | identifyFaces
  | generateCaption
  | generateTags
  | commit
  deriving Repr, DecidableEq

/-- `ProcessingResult` (processor.py lines 22-63), without the wall-clock
`processing_time`. -/
structure ProcResult where
  imageKey : String
  fileName : String
  success : Bool
  skipped : Bool
  captionGenerated : Bool
  tagsGenerated : ℕ
  facesDetected : ℕ
  error : Option String
  currentCaption : Option String
  currentKeywords : List String
  proposedCaption : Option String
  proposedKeywords : Option (List String)
  detectedFaces : Option (List String)
  location : Option String
  locationAliases : Option (List String)
  deriving Repr, DecidableEq

/-- The `ProcessingResult` constructed at the top of `process_image`
(lines 296-303). -/
def initResult (img : AlbumImage) : ProcResult :=
  { imageKey := img.imageKey, fileName := img.fileName, success := false,
    skipped := false, captionGenerated := false, tagsGenerated := 0,
    facesDetected := 0, error := none, currentCaption := img.caption,
    currentKeywords := img.keywords, proposedCaption := none,
    proposedKeywords := none, detectedFaces := none, location := none,
    locationAliases := none }

/-- `ImageProcessor._extract_location_tags` (processor.py lines 605-627):
split the resolved location name on commas, keep trimmed parts longer than
two characters, `None` when nothing qualifies. -/
def extractLocationTags (locationName : Option String) : Option (List String) :=
  let tags :=
    match locationName with
    | some s =>
        if s ≠ "" then
          ((s.replace "," "|").splitOn "|").foldl
            (fun acc part =>
              let p := part.trim
              if p ≠ "" ∧ p.length > 2 then acc ++ [p] else acc)
            []
        else []
    | none => []
  if tags ≠ [] then some tags else none

/-- The tail of `process_image` from caption generation to the result
(processor.py lines 411-488): generate the caption and tags (either may
raise, caught at line 483), format metadata, record the proposed fields in
the result (lines 459-464, before the dry-run branch), and commit to
SmugMug only when not in dry-run (lines 466-477).  `r1` and `tr` carry the
partial result and effect trace accumulated so far. -/
def afterFaces (cfg : ProcConfig) (dryRun : Bool) (env : ItemEnv)
    (img : AlbumImage) (r1 : ProcResult) (tr : List Effect)
    (locationString : Option String) (locationAliases : List String)
    (coordsSome : Bool) (personNames : List String) : ProcResult × List Effect :=
  match env.generateCaption with
  | .error msg => ({ r1 with error := some msg }, tr ++ [Effect.generateCaption])
  | .ok aiCaption =>
      match env.generateTags with
      | .error msg =>
          ({ r1 with error := some msg },
            tr ++ [Effect.generateCaption, Effect.generateTags])
      | .ok aiTags =>
          let finalCaption := formatCaption cfg.preserveExisting aiCaption img.caption
          let locationTags0 := if coordsSome then extractLocationTags locationString else none
          let locationTags :=
            if cfg.useAliasesAsTags ∧ locationAliases ≠ [] then
              some (locationTags0.getD [] ++ locationAliases)
            else locationTags0
          let finalTags :=
            formatTags cfg.preserveExisting cfg.markerTag aiTags img.keywords
              personNames locationTags
          let r2 := { r1 with
            proposedCaption := some finalCaption
            proposedKeywords := some finalTags
            detectedFaces := some personNames
            location := locationString
            locationAliases := some locationAliases }
          if dryRun = false then
            match env.updateMetadata with
            | .error msg =>
                ({ r2 with error := some msg },
                  tr ++ [Effect.generateCaption, Effect.generateTags, Effect.commit])
            | .ok _ =>
                ({ r2 with
                    success := true
                    captionGenerated := decide (aiCaption ≠ "")
                    tagsGenerated := aiTags.length },
                  tr ++ [Effect.generateCaption, Effect.generateTags, Effect.commit])
          else
            ({ r2 with
                success := true
                captionGenerated := decide (aiCaption ≠ "")
                tagsGenerated := aiTags.length },
              tr ++ [Effect.generateCaption, Effect.generateTags])

/-- The GPS source precedence of `process_image` (lines 329-350): the
SmugMug item's coordinates when both are present, else the EXIF-extracted
ones. -/
def gpsCoords (env : ItemEnv) (img : AlbumImage) : Option (ℚ × ℚ) :=
  match img.latitude, img.longitude with
  | some la, some lo => some (la, lo)
  | _, _ => env.exifCoords

/-- The location-resolution call of `process_image` (lines 352-381):
`resolve_location_with_custom` runs only when coordinates exist and
`use_exif_location` is set; otherwise location stays `None` with no
aliases. -/
def locationOutcome (cfg : ProcConfig) (env : ItemEnv)
    (coords : Option (ℚ × ℚ)) : Except String (Option String × List String × Bool) :=
  if coords.isSome ∧ cfg.useExifLocation then env.resolveLocation
  else Except.ok (none, [], false)

/-- `ImageProcessor.process_image` (processor.py lines 280-488): skip when
the marker tag is present and no force-reprocess override (lines 305-312,
before any download); otherwise download (with cached-path fallback and
existence check, lines 314-327), take GPS from the SmugMug item when
present, else from EXIF (`gpsCoords`), resolve the location when
coordinates exist and `use_exif_location` is set (`locationOutcome`),
identify faces when a recogniser is configured (lines 400-409, underscores
in names replaced by spaces), then `afterFaces`.  Any step's exception is
caught at lines 483-485 and recorded as `result.error = str(e)`. -/
def processImage (cfg : ProcConfig) (dryRun : Bool) (env : ItemEnv)
    (img : AlbumImage) (force : Bool) : ProcResult × List Effect :=
  let r0 := initResult img
  if force = false ∧ img.hasMarkerTag cfg.markerTag = true then
    ({ r0 with skipped := true }, [])
  else
    if env.pathExists (env.downloadResult.getD env.cachedPath) = false then
      ({ r0 with error := some ("Failed to download image: " ++ img.fileName) },
        [Effect.download])
    else
      match locationOutcome cfg env (gpsCoords env img) with
      | .error msg => ({ r0 with error := some msg }, [Effect.download])
      | .ok (locationString, locationAliases, _isCustom) =>
          if cfg.faceRecognition then
            match env.personNames with
            | .error msg =>
                ({ r0 with error := some msg },
                  [Effect.download, Effect.identifyFaces])
            | .ok rawNames =>
                let personNames := rawNames.map (fun n => n.replace "_" " ")
                afterFaces cfg dryRun env img
                  { r0 with facesDetected := personNames.length }
                  [Effect.download, Effect.identifyFaces]
                  locationString locationAliases (gpsCoords env img).isSome personNames
          else
            afterFaces cfg dryRun env img r0 [Effect.download]
              locationString locationAliases (gpsCoords env img).isSome []

/-- `BatchProcessingStats` (processor.py lines 66-87), without the
wall-clock `total_time`. -/
structure BatchStats where
  totalImages : ℕ
  processed : ℕ
  skipped : ℕ
  errors : ℕ
  results : List ProcResult
  deriving Repr, DecidableEq

/-- The video filter of `process_album` (processor.py lines 229-236). -/
def albumImages (items : List (AlbumImage × ItemEnv)) (skipVideos : Bool) :
    List (AlbumImage × ItemEnv) :=
  if skipVideos then items.filter (fun it => !it.1.isVideo) else items

/-- The per-item accumulation step of `process_album` (processor.py lines
246-268): append the result and bump exactly one counter — `processed`
when `success`, else `skipped` when `skipped`, else `errors`. -/
def albumStep (cfg : ProcConfig) (dryRun force : Bool) (stats : BatchStats)
    (it : AlbumImage × ItemEnv) : BatchStats :=
  let result := (processImage cfg dryRun it.2 it.1 force).1
  { stats with
    results := stats.results ++ [result]
    processed := if result.success then stats.processed + 1 else stats.processed
    skipped :=
      if ¬result.success ∧ result.skipped then stats.skipped + 1 else stats.skipped
    errors :=
      if ¬result.success ∧ ¬result.skipped then stats.errors + 1 else stats.errors }

/-- `ImageProcessor.process_album` (processor.py lines 200-278): list the
album once, filter videos when requested, then run `process_image` on each
item strictly in listing order, accumulating `BatchStats`. -/
def processAlbum (cfg : ProcConfig) (dryRun : Bool)
    (items : List (AlbumImage × ItemEnv)) (force skipVideos : Bool) : BatchStats :=
  let images := albumImages items skipVideos
  images.foldl (albumStep cfg dryRun force)
    ⟨images.length, 0, 0, 0, []⟩

end SmugVision

namespace SmugVision

theorem formatTags_marker {preserve : Bool} {marker : String}
    {aiTags existingTags personNames : List String}
    {locationTags : Option (List String)} :
    lowerMem marker
      (formatTags preserve marker aiTags existingTags personNames locationTags) = true := by
  unfold formatTags
  exact addTagIfNew_mem_self

theorem processImage_skip_eq {cfg : ProcConfig} {dryRun : Bool} {env : ItemEnv}
    {img : AlbumImage} {force : Bool}
    (h : force = false ∧ img.hasMarkerTag cfg.markerTag = true) :
    processImage cfg dryRun env img force =
      ({ initResult img with skipped := true }, []) := by
  unfold processImage
  rw [if_pos h]

theorem afterFaces_facts (cfg : ProcConfig) (dryRun : Bool) (env : ItemEnv)
    (img : AlbumImage) (r1 : ProcResult) (tr : List Effect)
    (ls : Option String) (la : List String) (cs : Bool) (pn : List String)
    (hskip : r1.skipped = false) (hsucc : r1.success = false) :
    (afterFaces cfg dryRun env img r1 tr ls la cs pn).1.skipped = false ∧
    ((afterFaces cfg dryRun env img r1 tr ls la cs pn).1.success = true →
      ∃ ks, (afterFaces cfg dryRun env img r1 tr ls la cs pn).1.proposedKeywords = some ks ∧
        lowerMem cfg.markerTag ks = true) ∧
    ((afterFaces cfg dryRun env img r1 tr ls la cs pn).1.success = false →
      (afterFaces cfg dryRun env img r1 tr ls la cs pn).1.error.isSome = true) := by
  unfold afterFaces
  split
  · exact ⟨hskip, fun hs => absurd hs (by simp [hsucc]), fun _ => rfl⟩
  · split
    · exact ⟨hskip, fun hs => absurd hs (by simp [hsucc]), fun _ => rfl⟩
    · dsimp only
      split
      · split
        · exact ⟨hskip, fun hs => absurd hs (by simp [hsucc]), fun _ => rfl⟩
        · exact ⟨hskip, fun _ => ⟨_, rfl, formatTags_marker⟩, fun hs => by simp at hs⟩
      · exact ⟨hskip, fun _ => ⟨_, rfl, formatTags_marker⟩, fun hs => by simp at hs⟩

theorem processImage_noskip {cfg : ProcConfig} {dryRun : Bool} {env : ItemEnv}
    {img : AlbumImage} {force : Bool}
    (h : ¬(force = false ∧ img.hasMarkerTag cfg.markerTag = true)) :
    (processImage cfg dryRun env img force).1.skipped = false ∧
    ((processImage cfg dryRun env img force).1.success = true →
      ∃ ks, (processImage cfg dryRun env img force).1.proposedKeywords = some ks ∧
        lowerMem cfg.markerTag ks = true) ∧
    ((processImage cfg dryRun env img force).1.success = false →
      (processImage cfg dryRun env img force).1.error.isSome = true) := by
  unfold processImage
  rw [if_neg h]
  dsimp only
  split
  · exact ⟨rfl, fun hs => by simp [initResult] at hs, fun _ => rfl⟩
  · split
    · exact ⟨rfl, fun hs => by simp [initResult] at hs, fun _ => rfl⟩
    · split
      · split
        · exact ⟨rfl, fun hs => by simp [initResult] at hs, fun _ => rfl⟩
        · exact afterFaces_facts _ _ _ _ _ _ _ _ _ _ rfl rfl
      · exact afterFaces_facts _ _ _ _ _ _ _ _ _ _ rfl rfl

/-- **C1.** With `force_reprocess` off, an item is skipped exactly when the
marker token is in its keyword set — and a skipped item causes no download,
face identification, generation or commit (the effect trace is empty, the
result untouched apart from `skipped`).  With `force_reprocess` on the item
is never skipped.  And the pipeline is idempotent: a successful run
proposes a keyword set containing the marker (via the spec-modelled
`formatTags`), so once the host's keywords are updated to the proposed
set, a second run with `force_reprocess=false` is skipped. -/
theorem pipeline_skip_iff_marker :
    (∀ (cfg : ProcConfig) (d : Bool) (env : ItemEnv) (img : AlbumImage),
      ((processImage cfg d env img false).1.skipped = true ↔
        img.hasMarkerTag cfg.markerTag = true) ∧
      (img.hasMarkerTag cfg.markerTag = true →
        processImage cfg d env img false =
          ({ initResult img with skipped := true }, []))) ∧
    (∀ (cfg : ProcConfig) (d : Bool) (env : ItemEnv) (img : AlbumImage),
      (processImage cfg d env img true).1.skipped = false) ∧
    (∀ (cfg : ProcConfig) (env : ItemEnv) (img : AlbumImage) (d d2 : Bool)
      (env2 : ItemEnv) (ks : List String),
      (processImage cfg d env img false).1.success = true →
      (processImage cfg d env img false).1.proposedKeywords = some ks →
      (processImage cfg d2 env2 { img with keywords := ks } false).1.skipped = true) := by
  refine ⟨?_, ?_, ?_⟩
  · intro cfg d env img
    constructor
    · by_cases hm : img.hasMarkerTag cfg.markerTag = true
      · rw [processImage_skip_eq ⟨rfl, hm⟩]
        exact ⟨fun _ => hm, fun _ => rfl⟩
      · have hns := (@processImage_noskip cfg d env img false (by simp [hm])).1
        rw [hns]
        exact ⟨fun hfalse => absurd hfalse (by decide), fun hmm => absurd hmm hm⟩
    · intro hm
      exact processImage_skip_eq ⟨rfl, hm⟩
  · intro cfg d env img
    exact (@processImage_noskip cfg d env img true (by simp)).1
  · intro cfg env img d d2 env2 ks hsucc hks
    by_cases hm : img.hasMarkerTag cfg.markerTag = true
    · rw [processImage_skip_eq ⟨rfl, hm⟩] at hsucc
      simp [initResult] at hsucc
    · obtain ⟨ks2, hks2, hmem⟩ :=
        (@processImage_noskip cfg d env img false (by simp [hm])).2.1 hsucc
      rw [hks] at hks2
      cases hks2
      have hm2 : AlbumImage.hasMarkerTag { img with keywords := ks } cfg.markerTag = true := by
        unfold AlbumImage.hasMarkerTag
        exact hmem
      rw [processImage_skip_eq ⟨rfl, hm2⟩]

end SmugVision

namespace SmugVision

theorem afterFaces_parity (cfg : ProcConfig) (env : ItemEnv) (img : AlbumImage)
    (r1 : ProcResult) (tr : List Effect) (ls : Option String) (la : List String)
    (cs : Bool) (pn : List String) (hc : Effect.commit ∉ tr) :
    (afterFaces cfg true env img r1 tr ls la cs pn).1.proposedCaption =
      (afterFaces cfg false env img r1 tr ls la cs pn).1.proposedCaption ∧
    (afterFaces cfg true env img r1 tr ls la cs pn).1.proposedKeywords =
      (afterFaces cfg false env img r1 tr ls la cs pn).1.proposedKeywords ∧
    (afterFaces cfg true env img r1 tr ls la cs pn).1.detectedFaces =
      (afterFaces cfg false env img r1 tr ls la cs pn).1.detectedFaces ∧
    (afterFaces cfg true env img r1 tr ls la cs pn).1.location =
      (afterFaces cfg false env img r1 tr ls la cs pn).1.location ∧
    (afterFaces cfg true env img r1 tr ls la cs pn).1.locationAliases =
      (afterFaces cfg false env img r1 tr ls la cs pn).1.locationAliases ∧
    Effect.commit ∉ (afterFaces cfg true env img r1 tr ls la cs pn).2 ∧
    ((afterFaces cfg false env img r1 tr ls la cs pn).2 =
        (afterFaces cfg true env img r1 tr ls la cs pn).2 ∨
      (afterFaces cfg false env img r1 tr ls la cs pn).2 =
        (afterFaces cfg true env img r1 tr ls la cs pn).2 ++ [Effect.commit]) := by
  unfold afterFaces
  split
  · refine ⟨rfl, rfl, rfl, rfl, rfl, ?_, Or.inl rfl⟩
    simp [hc]
  · split
    · refine ⟨rfl, rfl, rfl, rfl, rfl, ?_, Or.inl rfl⟩
      simp [hc]
    · dsimp only
      rw [if_neg (by decide : ¬(true = false)), if_pos rfl]
      cases hupd : env.updateMetadata with
      | error msg =>
          refine ⟨rfl, rfl, rfl, rfl, rfl, ?_, Or.inr ?_⟩
          · simp [hc]
          · simp
      | ok u =>
          refine ⟨rfl, rfl, rfl, rfl, rfl, ?_, Or.inr ?_⟩
          · simp [hc]
          · simp

/-- **C9.** For every item and fixed oracle outcomes, the proposed caption,
proposed keywords, detected people, resolved location and aliases recorded
in the result are identical whether the pipeline runs with `dry_run=true`
or `dry_run=false` (they are written to the result before the dry-run
branch, processor.py lines 459-464); the dry-run flag affects only whether
the commit to the host happens: a dry run performs no commit effect, and a
non-dry run performs at most one extra `commit` effect at the end of the
same effect trace. -/
theorem dryRun_parity :
    ∀ (cfg : ProcConfig) (env : ItemEnv) (img : AlbumImage) (force : Bool),
      (processImage cfg true env img force).1.proposedCaption =
        (processImage cfg false env img force).1.proposedCaption ∧
      (processImage cfg true env img force).1.proposedKeywords =
        (processImage cfg false env img force).1.proposedKeywords ∧
      (processImage cfg true env img force).1.detectedFaces =
        (processImage cfg false env img force).1.detectedFaces ∧
      (processImage cfg true env img force).1.location =
        (processImage cfg false env img force).1.location ∧
      (processImage cfg true env img force).1.locationAliases =
        (processImage cfg false env img force).1.locationAliases ∧
      Effect.commit ∉ (processImage cfg true env img force).2 ∧
      ((processImage cfg false env img force).2 =
          (processImage cfg true env img force).2 ∨
        (processImage cfg false env img force).2 =
          (processImage cfg true env img force).2 ++ [Effect.commit]) := by
  intro cfg env img force
  unfold processImage
  by_cases hskip : force = false ∧ img.hasMarkerTag cfg.markerTag = true
  · simp only [if_pos hskip]
    exact ⟨by simp, by simp, by simp, by simp, by simp, by simp, Or.inl (by simp)⟩
  · simp only [if_neg hskip]
    by_cases hex : env.pathExists (env.downloadResult.getD env.cachedPath) = false
    · simp only [if_pos hex]
      exact ⟨by simp, by simp, by simp, by simp, by simp, by simp, Or.inl (by simp)⟩
    · simp only [if_neg hex]
      cases hloc : locationOutcome cfg env (gpsCoords env img) with
      | error msg =>
          exact ⟨by simp, by simp, by simp, by simp, by simp, by simp, Or.inl (by simp)⟩
      | ok triple =>
          obtain ⟨ls, la, ic⟩ := triple
          by_cases hfr : cfg.faceRecognition = true
          · simp only [if_pos hfr]
            cases hpn : env.personNames with
            | error msg =>
                exact ⟨by simp, by simp, by simp, by simp, by simp, by simp, Or.inl (by simp)⟩
            | ok rawNames =>
                dsimp only
                exact afterFaces_parity cfg env img _ _ ls la _ _ (by decide)
          · simp only [if_neg hfr]
            exact afterFaces_parity cfg env img _ _ ls la _ _ (by decide)

end SmugVision

namespace SmugVision

/-- The classification `process_album` uses for `processed` (lines 257-258). -/
def pSuccess (r : ProcResult) : Bool := r.success

/-- The classification `process_album` uses for `skipped` (lines 259-260). -/
def pSkipped (r : ProcResult) : Bool := !r.success && r.skipped

/-- The classification `process_album` uses for `errors` (lines 261-262). -/
def pError (r : ProcResult) : Bool := !r.success && !r.skipped

theorem foldl_albumStep_spec (cfg : ProcConfig) (d force : Bool) :
    ∀ (images : List (AlbumImage × ItemEnv)) (s : BatchStats),
      (images.foldl (albumStep cfg d force) s).results =
        s.results ++ images.map (fun it => (processImage cfg d it.2 it.1 force).1) ∧
      (images.foldl (albumStep cfg d force) s).processed =
        s.processed +
          (images.map (fun it => (processImage cfg d it.2 it.1 force).1)).countP pSuccess ∧
      (images.foldl (albumStep cfg d force) s).skipped =
        s.skipped +
          (images.map (fun it => (processImage cfg d it.2 it.1 force).1)).countP pSkipped ∧
      (images.foldl (albumStep cfg d force) s).errors =
        s.errors +
          (images.map (fun it => (processImage cfg d it.2 it.1 force).1)).countP pError ∧
      (images.foldl (albumStep cfg d force) s).totalImages = s.totalImages := by
  intro images
  induction images with
  | nil => intro s; simp
  | cons it its ih =>
      intro s
      simp only [List.foldl_cons, List.map_cons]
      obtain ⟨h1, h2, h3, h4, h5⟩ := ih (albumStep cfg d force s it)
      refine ⟨?_, ?_, ?_, ?_, ?_⟩
      · rw [h1]
        simp [albumStep]
      · rw [h2]
        unfold albumStep pSuccess
        by_cases hs : (processImage cfg d it.2 it.1 force).1.success = true <;>
          simp [hs, List.countP_cons] <;> omega
      · rw [h3]
        unfold albumStep pSkipped
        by_cases hs : (processImage cfg d it.2 it.1 force).1.success = true <;>
          by_cases hk : (processImage cfg d it.2 it.1 force).1.skipped = true <;>
            simp [hs, hk, List.countP_cons] <;> omega
      · rw [h4]
        unfold albumStep pError
        by_cases hs : (processImage cfg d it.2 it.1 force).1.success = true <;>
          by_cases hk : (processImage cfg d it.2 it.1 force).1.skipped = true <;>
            simp [hs, hk, List.countP_cons] <;> omega
      · rw [h5]
        rfl

theorem processImage_error_of_failure {cfg : ProcConfig} {d : Bool} {env : ItemEnv}
    {img : AlbumImage} {force : Bool}
    (hs : (processImage cfg d env img force).1.success = false)
    (hk : (processImage cfg d env img force).1.skipped = false) :
    (processImage cfg d env img force).1.error.isSome = true := by
  by_cases hm : force = false ∧ img.hasMarkerTag cfg.markerTag = true
  · rw [processImage_skip_eq hm] at hk
    simp [initResult] at hk
  · exact (processImage_noskip hm).2.2 hs

/-- **C5, amended.** `process_album` applies `process_image` to each
(non-video) item strictly in listing order and appends exactly one result
per item in that order; an item whose processing raises an exception gets
the exception's message recorded in its result's `error` field (always
set, so non-empty whenever the exception's message is non-empty) and is
counted in `errors`; every later item is still processed — the batch is
never aborted by a single item. -/
theorem processAlbum_isolation :
    ∀ (cfg : ProcConfig) (d : Bool) (items : List (AlbumImage × ItemEnv))
      (force skipVideos : Bool),
      (processAlbum cfg d items force skipVideos).results =
        (albumImages items skipVideos).map
          (fun it => (processImage cfg d it.2 it.1 force).1) ∧
      (processAlbum cfg d items force skipVideos).totalImages =
        (albumImages items skipVideos).length ∧
      (processAlbum cfg d items force skipVideos).processed =
        ((albumImages items skipVideos).map
          (fun it => (processImage cfg d it.2 it.1 force).1)).countP pSuccess ∧
      (processAlbum cfg d items force skipVideos).skipped =
        ((albumImages items skipVideos).map
          (fun it => (processImage cfg d it.2 it.1 force).1)).countP pSkipped ∧
      (processAlbum cfg d items force skipVideos).errors =
        ((albumImages items skipVideos).map
          (fun it => (processImage cfg d it.2 it.1 force).1)).countP pError ∧
      (∀ r ∈ (processAlbum cfg d items force skipVideos).results,
        r.success = false → r.skipped = false → r.error.isSome = true) := by
  intro cfg d items force skipVideos
  obtain ⟨h1, h2, h3, h4, h5⟩ :=
    foldl_albumStep_spec cfg d force (albumImages items skipVideos)
      ⟨(albumImages items skipVideos).length, 0, 0, 0, []⟩
  unfold processAlbum
  refine ⟨by simpa using h1, by simpa using h5, by simpa using h2,
    by simpa using h3, by simpa using h4, ?_⟩
  intro r hr hs hk
  rw [show ((albumImages items skipVideos).foldl (albumStep cfg d force)
      ⟨(albumImages items skipVideos).length, 0, 0, 0, []⟩).results =
      (albumImages items skipVideos).map
        (fun it => (processImage cfg d it.2 it.1 force).1) by simpa using h1] at hr
  obtain ⟨it, -, hit⟩ := List.mem_map.mp hr
  subst hit
  exact processImage_error_of_failure hs hk

end SmugVision

namespace SmugVision

/-- Concrete pipeline configuration used in witnesses. -/
def cfgP : ProcConfig :=
  { markerTag := "smugvision"
    useExifLocation := true
    useAliasesAsTags := true
    preserveExisting := true
    faceRecognition := false }

/-- Concrete per-item oracle where every external call succeeds. -/
def envAllOk : ItemEnv :=
  { downloadResult := some "/cache/a.jpg"
    cachedPath := "/cache/a.jpg"
    pathExists := fun _ => true
    exifCoords := none
    resolveLocation := Except.ok (none, [], false)
    personNames := Except.ok []
    generateCaption := Except.ok "A photo."
    generateTags := Except.ok ["beach"]
    updateMetadata := Except.ok () }

/-- Oracle where the download fails: `_download_image` returns `None` and
the cached path does not exist, so `process_image` raises. -/
def envDownFail : ItemEnv :=
  { envAllOk with
    downloadResult := none
    pathExists := fun _ => false }

/-- Oracle where caption generation raises an exception whose `str(e)` is
the empty string (e.g. `RuntimeError()`). -/
def envRaiseEmpty : ItemEnv :=
  { envAllOk with generateCaption := Except.error "" }

/-- A concrete unprocessed item (no marker tag, no GPS). -/
def imgP (k : String) : AlbumImage :=
  { imageKey := k
    fileName := k ++ ".jpg"
    caption := none
    keywords := ["holiday"]
    isVideo := false
    latitude := none
    longitude := none }

/-- Witness for `pipeline_skip_iff_marker`: a concrete successful first run
proposes keywords containing the marker, and the second run over those
keywords is skipped. -/
theorem pipeline_skip_iff_marker_witness :
    (processImage cfgP false envAllOk (imgP "one") false).1.success = true ∧
    (processImage cfgP false envAllOk
      { imgP "one" with keywords := ["holiday", "beach", "smugvision"] }
      false).1.skipped = true := by
  refine ⟨by decide, ?_⟩
  exact pipeline_skip_iff_marker.2.2 cfgP envAllOk (imgP "one") false false envAllOk
    ["holiday", "beach", "smugvision"] (by decide) (by decide)

/-- The spec's five-item batch, with item three's download failing. -/
def items5 : List (AlbumImage × ItemEnv) :=
  [(imgP "one", envAllOk), (imgP "two", envAllOk), (imgP "three", envDownFail),
   (imgP "four", envAllOk), (imgP "five", envAllOk)]

/-- The result `process_image` produces for the download-failed item. -/
def r3W : ProcResult :=
  { initResult (imgP "three") with
    error := some "Failed to download image: three.jpg" }

/-- **C5, counterexample.** The claim that a raising item's result records
a *non-empty* error fails when the raised exception's `str(e)` is empty
(`result.error = str(e)` at processor.py line 485): a batch whose single
item's caption generation raises `RuntimeError()` yields a result whose
error field is the empty string — recorded and counted as an error, but
not non-empty. -/
theorem processAlbum_claim_counterexample :
    ((processAlbum cfgP false [(imgP "one", envRaiseEmpty)] false true).results.map
      ProcResult.error) = [some ""] ∧
    (processAlbum cfgP false [(imgP "one", envRaiseEmpty)] false true).errors = 1 :=
  ⟨by decide, by decide⟩

/-- Witness for `processAlbum_isolation`: the spec's scenario — five items,
item three's download raises, stats show `processed = 4`, `errors = 1`,
item three's result records the error and items four and five are still
processed. -/
theorem processAlbum_isolation_witness :
    (processAlbum cfgP false items5 false true).processed = 4 ∧
    (processAlbum cfgP false items5 false true).errors = 1 ∧
    r3W.error.isSome = true := by
  refine ⟨by decide, by decide, ?_⟩
  exact (processAlbum_isolation cfgP false items5 false true).2.2.2.2.2 r3W
    (by decide) (by decide) (by decide)

end SmugVision
